import Mathlib

/-
Verification of the concurrent query-and-aggregation engine in
src/reports/main.py (NASA-IMPACT/science-support).

The development shallowly embeds the program: the remote API is modelled as
data handed to each task (a commit fetch task receives the commit listing it
would have obtained, a resolved-item fetch task receives a search function),
Python exceptions are modelled with an explicit error channel (PyErr), and the
try/except boundaries of the two task functions become explicit Except-valued
wrappers.  Python exception classes matter for the boundary: `except Exception`
catches every exception deriving from class Exception (all network, auth,
not-found, parse and programming errors raised by the task bodies), while
BaseExceptions outside that class (KeyboardInterrupt, SystemExit) propagate.
-/

/-- Python errors as seen by an `except Exception` handler: `exception e` is an
instance of class Exception (caught), `fatal e` is a BaseException outside the
Exception class (not caught). The payload is the message text str(e). -/
inductive PyErr where
  | exception (msg : String)
  | fatal (msg : String)
deriving DecidableEq, Repr

/-- One configured task triple (owner, repo, username), as produced by
get_repos_x_contributors_for_pi (src/reports/main.py line 158). -/
abbrev RTask := String × String × String

/-- Data of one commit returned by repository.get_commits (main.py lines 37-39),
together with the numbers of the pull requests returned by commit.get_pulls()
(line 47): prs lists the linked PR numbers, so pulls.totalCount = prs.length and
pulls[0].number = prs.headD 0.  statsTotal models commit.stats.total when
commit.stats is available (line 65). -/
structure GhCommit where
  sha : String := ""
  message : String := ""
  authorName : String := ""
  committerName : String := ""
  url : String := ""
  statsTotal : Option Nat := none
  prs : List Nat := []
deriving DecidableEq, Repr

/-- Output row built at src/reports/main.py lines 58-69. -/
structure CommitRecord where
  sha : String
  message : String
  author : String
  committer : String
  url : String
  total_changes : Nat
  organization : String
  repository : String
deriving DecidableEq, Repr

/-- Data of one item returned by g.search_issues (main.py lines 103-104), with
the fields read at lines 107-127.  userLogin models item.user.login when
item.user is present; createdAtIso / updatedAtIso model the already-formatted
isoformat timestamps; pullRequestHtml models item.pull_request (present exactly
for pull requests). -/
structure SearchItem where
  number : Nat := 0
  title : String := ""
  state : String := ""
  userLogin : Option String := none
  url : String := ""
  createdAtIso : Option String := none
  updatedAtIso : Option String := none
  pullRequestHtml : Option String := none
  repoOwnerLogin : String := ""
  repoName : String := ""
deriving DecidableEq, Repr

/-- Output row built at src/reports/main.py lines 114-128. -/
structure ResolvedItemRecord where
  number : Nat
  title : String
  itemType : String
  state : String
  author : Option String
  url : String
  created_at : Option String
  updated_at : Option String
  organization : String
  repository : String
  contributor : String
deriving DecidableEq, Repr

/-- Date as held by the datetime values flowing through main.py. -/
structure PyDate where
  year : Nat
  month : Nat
  day : Nat
deriving DecidableEq, Repr

/-- Zero-padding to two digits, as strftime %m and %d render months and days. -/
def pad2 (n : Nat) : String :=
  if n < 10 then "0" ++ toString n else toString n

/-- Zero-padding to four digits, as strftime %Y renders years. -/
def pad4 (n : Nat) : String :=
  if n < 10 then "000" ++ toString n
  else if n < 100 then "00" ++ toString n
  else if n < 1000 then "0" ++ toString n
  else toString n

/-- Embedding of date.strftime("%Y-%m-%d") (src/reports/main.py lines 94-95). -/
def strftimeDashed (d : PyDate) : String :=
  pad4 d.year ++ "-" ++ pad2 d.month ++ "-" ++ pad2 d.day

/-- Embedding of Python str.split("\n")[0]: the first line of a message
(src/reports/main.py line 61).  str.split never returns an empty list, so the
index-0 access is total. -/
def firstLine (s : String) : String :=
  (s.splitOn "\n").headD ""

/-- Record extraction for one kept commit (src/reports/main.py lines 58-69). -/
def mkCommitRecord (owner repo : String) (c : GhCommit) : CommitRecord :=
  { sha := c.sha
    message := firstLine c.message
    author := c.authorName
    committer := c.committerName
    url := c.url
    total_changes := c.statsTotal.getD 0
    organization := owner
    repository := repo }

/-- Classification loop of get_commits_for_repo_author (src/reports/main.py
lines 42-53), with the three Python accumulator lists (prs, pr_commits,
standalone_commits) threaded explicitly; Python list.append is ++ [x] and
membership testing is list membership. -/
def classifyCommits :
    List GhCommit → List Nat → List GhCommit → List GhCommit →
      List GhCommit × List GhCommit
  | [], _prs, pr_commits, standalone_commits => (pr_commits, standalone_commits)
  | commit :: rest, prs, pr_commits, standalone_commits =>
    if commit.prs.length = 1 then
      if commit.prs.headD 0 ∈ prs then
        classifyCommits rest prs pr_commits standalone_commits
      else
        classifyCommits rest (prs ++ [commit.prs.headD 0])
          (pr_commits ++ [commit]) standalone_commits
    else if commit.prs.length = 0 then
      classifyCommits rest prs pr_commits (standalone_commits ++ [commit])
    else
      classifyCommits rest prs pr_commits standalone_commits

/-- PR-commit part of one task run: pr_commits after the loop, started from the
empty accumulators of src/reports/main.py lines 42-44. -/
def prCommitsOf (commits : List GhCommit) : List GhCommit :=
  (classifyCommits commits [] [] []).1

/-- Standalone part of one task run. -/
def standaloneCommitsOf (commits : List GhCommit) : List GhCommit :=
  (classifyCommits commits [] [] []).2

/-- Kept commits of one task in output order: pr_commits + standalone_commits
(src/reports/main.py line 57). -/
def keptCommits (commits : List GhCommit) : List GhCommit :=
  prCommitsOf commits ++ standaloneCommitsOf commits

/-- Body of get_commits_for_repo_author on the happy path (src/reports/main.py
lines 36-70): classify, then extract a record per kept commit. -/
def commitTaskBody (owner repo : String) (commits : List GhCommit) :
    List CommitRecord :=
  (keptCommits commits).map (mkCommitRecord owner repo)

/-- Diagnostic printed by the except handler at src/reports/main.py line 72. -/
def commitErrLog (owner repo author e : String) : String :=
  "  Error processing " ++ owner ++ "/" ++ repo ++ " for " ++ author ++ ": " ++ e

/-- Task boundary of get_commits_for_repo_author (src/reports/main.py lines 35
and 71-73): the try block spans the whole body (API calls, the classification
loop of lines 46-53 and the record extraction of lines 56-69), so any
Exception-class error raised anywhere in the body is caught, logged and turned
into an empty result; a BaseException outside class Exception propagates.  The
second component of the result collects the printed diagnostics. -/
def commitTaskExcept (owner repo author : String)
    (body : Except PyErr (List CommitRecord)) :
    Except PyErr (List CommitRecord × List String) :=
  match body with
  | .ok r => .ok (r, [])
  | .error (.exception e) => .ok ([], [commitErrLog owner repo author e])
  | .error (.fatal e) => .error (.fatal e)

/-- Embedding of get_commits_for_repo_author (src/reports/main.py lines 21-73).
The remote listing together with the per-commit pull lookups is modelled as the
data the body would obtain: either the fully fetched commits or the first
Exception raised while the body consumed the API. -/
def get_commits_for_repo_author (owner repo author : String)
    (apiResult : Except PyErr (List GhCommit)) :
    Except PyErr (List CommitRecord × List String) :=
  commitTaskExcept owner repo author (apiResult.map (commitTaskBody owner repo))

/-- Sanity check on the spec scenario: of a(101), b(101), c(no PRs),
d(55 and 56) the classification keeps exactly a and c. -/
theorem keptCommits_scenario : keptCommits
    [{ sha := "a", prs := [101] }, { sha := "b", prs := [101] },
     { sha := "c", prs := [] }, { sha := "d", prs := [55, 56] }] =
    [{ sha := "a", prs := [101] }, { sha := "c", prs := [] }] := by decide

/-- Embedding of Python " ".join applied to a list of strings
(src/reports/main.py line 96). -/
def joinSpace : List String → String
  | [] => ""
  | [x] => x
  | x :: y :: rest => x ++ " " ++ joinSpace (y :: rest)

/-- The repo filters of src/reports/main.py line 96: one repo:owner/name
qualifier per task triple, space separated. -/
def repo_filters (tasks : List RTask) : String :=
  joinSpace (tasks.map (fun t => "repo:" ++ t.1 ++ "/" ++ t.2.1))

/-- The shared base query of src/reports/main.py lines 97-101. -/
def base_query (tasks : List RTask) (contributor : String)
    (start_date end_date : PyDate) : String :=
  repo_filters tasks ++ " " ++
    "involves:" ++ contributor ++ " " ++
    "closed:" ++ strftimeDashed start_date ++ ".." ++ strftimeDashed end_date

/-- Query string of the issue search at src/reports/main.py line 103. -/
def issueQueryStr (tasks : List RTask) (contributor : String)
    (start_date end_date : PyDate) : String :=
  "is:issue " ++ base_query tasks contributor start_date end_date

/-- Query string of the pull-request search at src/reports/main.py line 104. -/
def prQueryStr (tasks : List RTask) (contributor : String)
    (start_date end_date : PyDate) : String :=
  "is:pr " ++ base_query tasks contributor start_date end_date ++
    " -author:" ++ contributor

/-- Record extraction for one retained search item (src/reports/main.py lines
113-128): is_pr is whether item.pull_request is present. -/
def mkResolvedRecord (contributor : String) (item : SearchItem) :
    ResolvedItemRecord :=
  { number := item.number
    title := item.title
    itemType := if item.pullRequestHtml.isSome then "PR" else "Issue"
    state := item.state
    author := item.userLogin
    url := item.url
    created_at := item.createdAtIso
    updated_at := item.updatedAtIso
    organization := item.repoOwnerLogin
    repository := item.repoName
    contributor := contributor }

/-- Result loop of get_resolved_for_contributor (src/reports/main.py lines
106-128): walk the combined item list; skip an item whose
(owner, repo, contributor) triple is not in the task list, otherwise append its
record. -/
def processItems (tasks : List RTask) (contributor : String) :
    List SearchItem → List ResolvedItemRecord
  | [] => []
  | item :: rest =>
    if (item.repoOwnerLogin, item.repoName, contributor) ∈ tasks then
      mkResolvedRecord contributor item :: processItems tasks contributor rest
    else
      processItems tasks contributor rest

/-- Diagnostic printed by the except handler at src/reports/main.py line 131. -/
def resolvedErrLog (contributor e : String) : String :=
  "  Error fetching issues/PRs for " ++ contributor ++ ": " ++ e

/-- Embedding of get_resolved_for_contributor (src/reports/main.py lines
76-132).  The search API is modelled as a function from the query string to the
items the body would obtain from it (or the Exception it would raise); the
try/except of lines 93 and 130-132 wraps the whole body, so any Exception-class
failure of either search yields the logged empty result and a BaseException
outside class Exception propagates. -/
def get_resolved_for_contributor (tasks : List RTask) (contributor : String)
    (start_date end_date : PyDate)
    (search : String → Except PyErr (List SearchItem)) :
    Except PyErr (List ResolvedItemRecord × List String) :=
  match search (issueQueryStr tasks contributor start_date end_date) with
  | .error (.exception e) => .ok ([], [resolvedErrLog contributor e])
  | .error (.fatal e) => .error (.fatal e)
  | .ok issues =>
    match search (prQueryStr tasks contributor start_date end_date) with
    | .error (.exception e) => .ok ([], [resolvedErrLog contributor e])
    | .error (.fatal e) => .error (.fatal e)
    | .ok prs => .ok (processItems tasks contributor (issues ++ prs), [])

/-- Dedup key used at src/reports/main.py line 225. -/
def recordKey (r : ResolvedItemRecord) : Nat × String × String :=
  (r.number, r.organization, r.repository)

/-- Modelled from the library call pandas.DataFrame.drop_duplicates with
subset=["number", "organization", "repository"] and the default keep="first"
(src/reports/main.py line 225): rows are scanned in order and a row is kept
exactly when its key has not been seen on an earlier row. -/
def drop_duplicates :
    List ResolvedItemRecord → List (Nat × String × String) →
      List ResolvedItemRecord
  | [], _seen => []
  | r :: rest, seen =>
    if recordKey r ∈ seen then drop_duplicates rest seen
    else r :: drop_duplicates rest (seen ++ [recordKey r])

/-- Configuration returned by the config collaborator for one PI
(src/reports/main.py lines 149-158): the optional date range, the contributor
pairs iterated as (display, username) at line 203, and the task triples. -/
structure RunConfig where
  time_range : Option (PyDate × PyDate)
  contributors : List (String × String)
  tasks : List RTask
deriving Repr

/-- Configuration failures raised by main before any fetch work
(src/reports/main.py lines 151 and 165). -/
inductive MainError where
  | noDateRange
  | noTasks
deriving DecidableEq, Repr

/-- Embedding of main (src/reports/main.py lines 135-228).  The two ValueError
raises become the error branches; per-task fetching is modelled by the two
functions giving each task its records (each completed future contributes its
list via all_commits.extend / all_resolved.extend, lines 205-215, so the
aggregate is the concatenation over tasks; completion order of the thread pool
is abstracted as submission order, and every aggregate property proved below is
insensitive to that order).  Line 225 deduplicates the resolved rows. -/
def mainRun (cfg : RunConfig)
    (fetchCommits : RTask → List CommitRecord)
    (fetchResolved : String → List ResolvedItemRecord) :
    Except MainError (List CommitRecord × List ResolvedItemRecord) :=
  match cfg.time_range with
  | none => .error .noDateRange
  | some _ =>
    if cfg.tasks.length < 1 then .error .noTasks
    else
      let all_commits := (cfg.tasks.map fetchCommits).flatten
      let all_resolved :=
        (cfg.contributors.map (fun p => fetchResolved p.2)).flatten
      .ok (all_commits, drop_duplicates all_resolved [])

/-- Generic first-occurrence filter behind both the PR-number bookkeeping of
the classification loop and the key dedup of line 225: walk the list, keep an
element whose key is defined and unseen (recording the key), drop an element
whose key is defined but already seen, drop an element with no key. -/
def firstOccur {α κ : Type} [DecidableEq κ] (keyOf : α → Option κ) :
    List α → List κ → List α
  | [], _seen => []
  | c :: rest, seen =>
    match keyOf c with
    | some k =>
      if k ∈ seen then firstOccur keyOf rest seen
      else c :: firstOccur keyOf rest (seen ++ [k])
    | none => firstOccur keyOf rest seen

theorem firstOccur_sublist {α κ : Type} [DecidableEq κ] (keyOf : α → Option κ)
    (l : List α) (seen : List κ) : (firstOccur keyOf l seen).Sublist l := by
  induction l generalizing seen with
  | nil => simp [firstOccur]
  | cons c rest ih =>
    cases hkc : keyOf c with
    | none =>
      simp only [firstOccur, hkc]
      exact (ih seen).cons c
    | some k0 =>
      by_cases hmem : k0 ∈ seen
      · simp only [firstOccur, hkc, if_pos hmem]
        exact (ih seen).cons c
      · simp only [firstOccur, hkc, if_neg hmem]
        exact (ih (seen ++ [k0])).cons₂ c

theorem mem_firstOccur_iff {α κ : Type} [DecidableEq κ] (keyOf : α → Option κ)
    (l : List α) (seen : List κ) (x : α) :
    x ∈ firstOccur keyOf l seen ↔
      ∃ k t1 t2, keyOf x = some k ∧ k ∉ seen ∧ l = t1 ++ x :: t2 ∧
        ∀ y ∈ t1, keyOf y ≠ some k := by
  induction l generalizing seen with
  | nil =>
    simp only [firstOccur, List.not_mem_nil, false_iff, not_exists]
    intro k t1 t2 h
    exact absurd h.2.2.1.symm (List.append_ne_nil_of_right_ne_nil _ (by simp))
  | cons c rest ih =>
    have decomp : ∀ (t1 t2 : List α), (c :: rest = t1 ++ x :: t2) ↔
        ((t1 = [] ∧ x :: t2 = c :: rest) ∨
          (∃ t1p, t1 = c :: t1p ∧ rest = t1p ++ x :: t2)) := by
      intro t1 t2
      exact List.cons_eq_append_iff
    cases hkc : keyOf c with
    | none =>
      simp only [firstOccur, hkc]
      rw [ih seen]
      constructor
      · rintro ⟨k, t1, t2, hkx, hks, hrest, hall⟩
        refine ⟨k, c :: t1, t2, hkx, hks, by simp [hrest], ?_⟩
        intro y hy
        rcases List.mem_cons.mp hy with h | h
        · rw [h, hkc]; simp
        · exact hall y h
      · rintro ⟨k, t1, t2, hkx, hks, heq, hall⟩
        rcases (decomp t1 t2).mp heq with ⟨ht1, hxt⟩ | ⟨t1p, ht1, hrest⟩
        · exfalso
          have hcx : c = x := (List.cons.injEq ..).mp hxt.symm |>.1
          rw [← hcx, hkc] at hkx
          exact Option.noConfusion hkx
        · refine ⟨k, t1p, t2, hkx, hks, hrest, ?_⟩
          intro y hy
          exact hall y (ht1 ▸ List.mem_cons_of_mem c hy)
    | some k0 =>
      by_cases hmem : k0 ∈ seen
      · simp only [firstOccur, hkc, if_pos hmem]
        rw [ih seen]
        constructor
        · rintro ⟨k, t1, t2, hkx, hks, hrest, hall⟩
          refine ⟨k, c :: t1, t2, hkx, hks, by simp [hrest], ?_⟩
          intro y hy
          rcases List.mem_cons.mp hy with h | h
          · rw [h, hkc]
            intro hc
            have hkk : k0 = k := Option.some.inj hc
            exact hks (hkk ▸ hmem)
          · exact hall y h
        · rintro ⟨k, t1, t2, hkx, hks, heq, hall⟩
          rcases (decomp t1 t2).mp heq with ⟨ht1, hxt⟩ | ⟨t1p, ht1, hrest⟩
          · exfalso
            have hcx : c = x := (List.cons.injEq ..).mp hxt.symm |>.1
            rw [← hcx, hkc] at hkx
            have : k0 = k := Option.some.inj hkx
            exact hks (this ▸ hmem)
          · refine ⟨k, t1p, t2, hkx, hks, hrest, ?_⟩
            intro y hy
            exact hall y (ht1 ▸ List.mem_cons_of_mem c hy)
      · simp only [firstOccur, hkc, if_neg hmem, List.mem_cons]
        constructor
        · rintro (hxc | hx)
          · exact ⟨k0, [], rest, hxc ▸ hkc, hmem, by simp [hxc], by simp⟩
          · obtain ⟨k, t1, t2, hkx, hks, hrest, hall⟩ := (ih (seen ++ [k0])).mp hx
            have hknot : k ∉ seen ∧ k ≠ k0 := by
              constructor
              · intro h; exact hks (by simp [h])
              · intro h; exact hks (by simp [h])
            refine ⟨k, c :: t1, t2, hkx, hknot.1, by simp [hrest], ?_⟩
            intro y hy
            rcases List.mem_cons.mp hy with h | h
            · rw [h, hkc]
              intro hc
              exact hknot.2 (Option.some.inj hc).symm
            · exact hall y h
        · rintro ⟨k, t1, t2, hkx, hks, heq, hall⟩
          rcases (decomp t1 t2).mp heq with ⟨ht1, hxt⟩ | ⟨t1p, ht1, hrest⟩
          · left
            exact ((List.cons.injEq ..).mp hxt.symm |>.1).symm
          · right
            refine (ih (seen ++ [k0])).mpr ⟨k, t1p, t2, hkx, ?_, hrest, ?_⟩
            · intro h
              rcases List.mem_append.mp h with h | h
              · exact hks h
              · have hck : keyOf c ≠ some k := hall c (ht1 ▸ List.mem_cons_self c t1p)
                rw [hkc] at hck
                exact hck (by simpa using (List.mem_singleton.mp h).symm ▸ rfl)
            · intro y hy
              exact hall y (ht1 ▸ List.mem_cons_of_mem c hy)

theorem exists_mem_firstOccur {α κ : Type} [DecidableEq κ]
    (keyOf : α → Option κ) (l : List α) (seen : List κ) (a : α) (k : κ)
    (ha : a ∈ l) (hk : keyOf a = some k) (hs : k ∉ seen) :
    ∃ x, x ∈ firstOccur keyOf l seen ∧ keyOf x = some k := by
  induction l generalizing seen with
  | nil => cases ha
  | cons c rest ih =>
    cases hkc : keyOf c with
    | none =>
      simp only [firstOccur, hkc]
      rcases List.mem_cons.mp ha with h | h
      · rw [h, hkc] at hk
        exact Option.noConfusion hk
      · exact ih seen h hs
    | some k0 =>
      by_cases hmem : k0 ∈ seen
      · simp only [firstOccur, hkc, if_pos hmem]
        rcases List.mem_cons.mp ha with h | h
        · rw [h, hkc] at hk
          exact absurd ((Option.some.inj hk) ▸ hmem) hs
        · exact ih seen h hs
      · simp only [firstOccur, hkc, if_neg hmem]
        by_cases hkk : k = k0
        · exact ⟨c, List.mem_cons_self c _, by rw [hkc, hkk]⟩
        · rcases List.mem_cons.mp ha with h | h
          · rw [h, hkc] at hk
            exact absurd (Option.some.inj hk).symm hkk
          · obtain ⟨x, hx, hkx⟩ := ih (seen ++ [k0]) h
              (by
                intro hin
                rcases List.mem_append.mp hin with hin | hin
                · exact hs hin
                · exact hkk (List.mem_singleton.mp hin))
            exact ⟨x, List.mem_cons_of_mem c hx, hkx⟩

theorem pairwise_key_firstOccur {α κ : Type} [DecidableEq κ]
    (keyOf : α → Option κ) (l : List α) (seen : List κ) :
    (firstOccur keyOf l seen).Pairwise (fun a b => keyOf a ≠ keyOf b) := by
  induction l generalizing seen with
  | nil => simp [firstOccur]
  | cons c rest ih =>
    cases hkc : keyOf c with
    | none =>
      simpa only [firstOccur, hkc] using ih seen
    | some k0 =>
      by_cases hmem : k0 ∈ seen
      · simpa only [firstOccur, hkc, if_pos hmem] using ih seen
      · simp only [firstOccur, hkc, if_neg hmem]
        refine List.Pairwise.cons ?_ (ih (seen ++ [k0]))
        intro y hy
        obtain ⟨k, t1, t2, hky, hks, -, -⟩ :=
          (mem_firstOccur_iff keyOf rest (seen ++ [k0]) y).mp hy
        rw [hkc, hky]
        intro hc
        exact hks (by simp [Option.some.inj hc])

theorem map_firstOccur {α β κ : Type} [DecidableEq κ] (keyOf : β → Option κ)
    (f : α → β) (l : List α) (seen : List κ) :
    (firstOccur (fun a => keyOf (f a)) l seen).map f =
      firstOccur keyOf (l.map f) seen := by
  induction l generalizing seen with
  | nil => simp [firstOccur]
  | cons c rest ih =>
    cases hkc : keyOf (f c) with
    | none => simp only [List.map_cons, firstOccur, hkc]; exact ih seen
    | some k0 =>
      by_cases hmem : k0 ∈ seen
      · simp only [List.map_cons, firstOccur, hkc, if_pos hmem]
        exact ih seen
      · simp only [List.map_cons, firstOccur, hkc, if_neg hmem, List.map_cons]
        rw [ih (seen ++ [k0])]

theorem map_filter_comp {α β : Type} (f : α → β) (p : β → Bool) (l : List α) :
    (l.filter (fun a => p (f a))).map f = (l.map f).filter p := by
  induction l with
  | nil => simp
  | cons c rest ih =>
    by_cases h : p (f c) <;> simp [List.filter_cons, h, ih]

/-- Key recorded by the classification loop for one commit: defined exactly
when the commit has exactly one linked PR, and then equal to pulls[0].number. -/
def commitKey (c : GhCommit) : Option Nat :=
  if c.prs.length = 1 then some (c.prs.headD 0) else none

theorem classifyCommits_eq (cs : List GhCommit) (prs : List Nat)
    (prC st : List GhCommit) :
    classifyCommits cs prs prC st =
      (prC ++ firstOccur commitKey cs prs,
        st ++ cs.filter (fun c => c.prs.length == 0)) := by
  induction cs generalizing prs prC st with
  | nil => simp [classifyCommits, firstOccur]
  | cons c rest ih =>
    by_cases h1 : c.prs.length = 1
    · have h0 : ¬ c.prs.length = 0 := by omega
      by_cases h2 : c.prs.headD 0 ∈ prs
      · simp only [classifyCommits, if_pos h1, if_pos h2, firstOccur,
          commitKey, List.filter_cons]
        rw [ih]
        simp [h1, h2, h0]
      · simp only [classifyCommits, if_pos h1, if_neg h2, firstOccur,
          commitKey, List.filter_cons]
        rw [ih]
        simp [h1, h2, h0]
    · by_cases h0 : c.prs.length = 0
      · simp only [classifyCommits, if_neg h1, if_pos h0, firstOccur,
          commitKey, List.filter_cons]
        rw [ih]
        simp [h1, h0]
      · simp only [classifyCommits, if_neg h1, if_neg h0, firstOccur,
          commitKey, List.filter_cons]
        rw [ih]
        simp [h1, h0]

theorem prCommitsOf_eq (cs : List GhCommit) :
    prCommitsOf cs = firstOccur commitKey cs [] := by
  simp [prCommitsOf, classifyCommits_eq]

theorem standaloneCommitsOf_eq (cs : List GhCommit) :
    standaloneCommitsOf cs = cs.filter (fun c => c.prs.length == 0) := by
  simp [standaloneCommitsOf, classifyCommits_eq]

/-- Position tagging: enumIdx n l pairs each element of l with its position,
counting from n.  Used to state per-position properties of the classification
even when the same commit value occurs twice. -/
def enumIdx {α : Type} : Nat → List α → List (Nat × α)
  | _n, [] => []
  | n, a :: l => (n, a) :: enumIdx (n + 1) l

theorem enumIdx_append {α : Type} (n : Nat) (l1 l2 : List α) :
    enumIdx n (l1 ++ l2) = enumIdx n l1 ++ enumIdx (n + l1.length) l2 := by
  induction l1 generalizing n with
  | nil => simp [enumIdx]
  | cons a t ih =>
    simp only [List.cons_append, enumIdx, List.append_eq, List.length_cons,
      ih (n + 1)]
    have harith : n + 1 + t.length = n + (t.length + 1) := by omega
    rw [harith]

theorem map_snd_enumIdx {α : Type} (n : Nat) (l : List α) :
    (enumIdx n l).map Prod.snd = l := by
  induction l generalizing n with
  | nil => simp [enumIdx]
  | cons a t ih => simp [enumIdx, ih]

theorem mem_enumIdx_fst {α : Type} (n : Nat) (l : List α) (p : Nat × α)
    (hp : p ∈ enumIdx n l) : n ≤ p.1 ∧ p.1 < n + l.length := by
  induction l generalizing n with
  | nil => cases hp
  | cons a t ih =>
    rcases List.mem_cons.mp hp with h | h
    · rw [h]
      simp
    · have := ih (n + 1) h
      simp only [List.length_cons]
      omega

theorem enumIdx_middle_unique {α : Type} (pre post : List α) (c : α)
    (t1 t2 : List (Nat × α))
    (h : enumIdx 0 pre ++ (pre.length, c) :: enumIdx (pre.length + 1) post
        = t1 ++ (pre.length, c) :: t2) :
    t1 = enumIdx 0 pre := by
  rcases List.append_eq_append_iff.mp h with ⟨a2, ha, hb⟩ | ⟨c2, hc, hd⟩
  · cases a2 with
    | nil => simpa using ha
    | cons b1 bs =>
      exfalso
      have hb2 := (List.cons.injEq ..).mp hb
      have hmem : (pre.length, c) ∈ enumIdx (pre.length + 1) post := by
        rw [hb2.2]
        exact List.mem_append.mpr (Or.inr (List.mem_cons_self _ _))
      have := mem_enumIdx_fst (pre.length + 1) post _ hmem
      omega
  · cases c2 with
    | nil => simpa using hc.symm
    | cons b1 bs =>
      exfalso
      have hd2 := (List.cons.injEq ..).mp hd
      have hmem : (pre.length, c) ∈ enumIdx 0 pre := by
        rw [hc]
        exact List.mem_append.mpr (Or.inr (hd2.1 ▸ List.mem_cons_self b1 bs))
      have := mem_enumIdx_fst 0 pre _ hmem
      omega

theorem commitKey_eq_some (y : GhCommit) (n : Nat) :
    commitKey y = some n ↔ y.prs = [n] := by
  cases hp : y.prs with
  | nil => simp [commitKey, hp]
  | cons a t =>
    cases t with
    | nil => simp [commitKey, hp]
    | cons b t2 => simp [commitKey, hp]

/-- Key function of the classification lifted to position-tagged commits. -/
def commitKeyE (p : Nat × GhCommit) : Option Nat := commitKey p.2

/-- Position-tagged run of one commit fetch task: the classification applied to
the position-tagged commit list, parts concatenated in output order.  Its
projection to plain commits is exactly keptCommits (proved with the claim). -/
def keptEnum (cs : List GhCommit) : List (Nat × GhCommit) :=
  firstOccur commitKeyE (enumIdx 0 cs) [] ++
    (enumIdx 0 cs).filter (fun p => p.2.prs.length == 0)

theorem map_snd_keptEnum (cs : List GhCommit) :
    (keptEnum cs).map Prod.snd = keptCommits cs := by
  unfold keptEnum keptCommits
  rw [List.map_append]
  congr 1
  · rw [prCommitsOf_eq]
    have h := map_firstOccur commitKey (Prod.snd (α := Nat) (β := GhCommit))
      (enumIdx 0 cs) []
    rw [map_snd_enumIdx] at h
    exact h
  · rw [standaloneCommitsOf_eq]
    have h := map_filter_comp (Prod.snd (α := Nat) (β := GhCommit))
      (fun c => c.prs.length == 0) (enumIdx 0 cs)
    rw [map_snd_enumIdx] at h
    exact h

theorem length_one_eq_headD (l : List Nat) (h : l.length = 1) :
    l = [l.headD 0] := by
  cases l with
  | nil => simp at h
  | cons a t =>
    cases t with
    | nil => simp
    | cons b t2 => simp at h

theorem keptEnum_pos_iff (pre post : List GhCommit) (c : GhCommit) :
    ((pre.length, c) ∈ keptEnum (pre ++ c :: post) ↔
      c.prs = [] ∨ (c.prs.length = 1 ∧ ∀ y ∈ pre, y.prs ≠ [c.prs.headD 0])) := by
  have hE : enumIdx 0 (pre ++ c :: post) =
      enumIdx 0 pre ++ (pre.length, c) :: enumIdx (pre.length + 1) post := by
    rw [enumIdx_append]
    simp [enumIdx]
  have hmemE : (pre.length, c) ∈ enumIdx 0 (pre ++ c :: post) := by
    rw [hE]
    exact List.mem_append.mpr (Or.inr (List.mem_cons_self _ _))
  have hsndpre : ∀ y : Nat × GhCommit, y ∈ enumIdx 0 pre → y.2 ∈ pre := by
    intro y hy
    have : y.2 ∈ (enumIdx 0 pre).map Prod.snd := List.mem_map_of_mem Prod.snd hy
    rwa [map_snd_enumIdx] at this
  have hApr : ((pre.length, c) ∈ firstOccur commitKeyE
        (enumIdx 0 (pre ++ c :: post)) [] ↔
      (c.prs.length = 1 ∧ ∀ y ∈ pre, y.prs ≠ [c.prs.headD 0])) := by
    rw [mem_firstOccur_iff]
    constructor
    · rintro ⟨k, t1, t2, hk, -, heq, hall⟩
      have hck : c.prs = [k] := (commitKey_eq_some c k).mp hk
      have hlen : c.prs.length = 1 := by rw [hck]; rfl
      have hhead : c.prs.headD 0 = k := by rw [hck]; rfl
      refine ⟨hlen, ?_⟩
      intro y hy
      rw [hE] at heq
      have ht1 : t1 = enumIdx 0 pre := enumIdx_middle_unique pre post c t1 t2 heq
      have hy2 : y ∈ (enumIdx 0 pre).map Prod.snd := by
        rw [map_snd_enumIdx]
        exact hy
      obtain ⟨p, hp, hpy⟩ := List.mem_map.mp hy2
      have hkp : commitKeyE p ≠ some k := hall p (ht1 ▸ hp)
      rw [hhead]
      intro hyk
      exact hkp (by
        unfold commitKeyE
        rw [hpy, (commitKey_eq_some y k).mpr hyk])
    · rintro ⟨h1, hall⟩
      refine ⟨c.prs.headD 0, enumIdx 0 pre, enumIdx (pre.length + 1) post,
        ?_, by simp, hE, ?_⟩
      · unfold commitKeyE
        exact (commitKey_eq_some c (c.prs.headD 0)).mpr (length_one_eq_headD _ h1)
      · intro y hy
        have hy2 : y.2 ∈ pre := hsndpre y hy
        have := hall y.2 hy2
        unfold commitKeyE
        intro hc
        exact this ((commitKey_eq_some y.2 (c.prs.headD 0)).mp hc)
  have hBst : ((pre.length, c) ∈ (enumIdx 0 (pre ++ c :: post)).filter
        (fun p => p.2.prs.length == 0) ↔ c.prs = []) := by
    rw [List.mem_filter]
    constructor
    · rintro ⟨-, h⟩
      exact List.length_eq_zero.mp (by simpa using h)
    · intro h
      exact ⟨hmemE, by simp [h]⟩
  unfold keptEnum
  rw [List.mem_append, hApr, hBst]
  tauto

/-- C1 (amended): the classification keeps the commit at a given position if
and only if it has zero linked PRs, or it has exactly one linked PR whose
number has not occurred as the sole linked PR of any earlier commit in the
sequence (first occurrence wins; later commits mapped to an already-seen PR
number are dropped; commits with two or more linked PRs are dropped).
Consequently no two kept PR commits of one task share the same originating PR
number.  Positions are tracked with keptEnum, whose projection to plain
commits is exactly the keptCommits list of the code (first conjunct). -/
theorem claim_C1_commit_classification (cs : List GhCommit) :
    ((keptEnum cs).map Prod.snd = keptCommits cs) ∧
    (∀ pre c post, cs = pre ++ c :: post →
      ((pre.length, c) ∈ keptEnum cs ↔
        c.prs = [] ∨
          (c.prs.length = 1 ∧ ∀ y ∈ pre, y.prs ≠ [c.prs.headD 0]))) ∧
    (prCommitsOf cs).Pairwise
      (fun a b => a.prs.headD 0 ≠ b.prs.headD 0) := by
  refine ⟨map_snd_keptEnum cs, ?_, ?_⟩
  · rintro pre c post rfl
    exact keptEnum_pos_iff pre post c
  · rw [prCommitsOf_eq]
    refine List.Pairwise.imp_of_mem ?_ (pairwise_key_firstOccur commitKey cs [])
    intro a b ha hb hne
    obtain ⟨ka, t1, t2, hka, -, -, -⟩ :=
      (mem_firstOccur_iff commitKey cs [] a).mp ha
    obtain ⟨kb, u1, u2, hkb, -, -, -⟩ :=
      (mem_firstOccur_iff commitKey cs [] b).mp hb
    have ha2 : a.prs = [ka] := (commitKey_eq_some a ka).mp hka
    have hb2 : b.prs = [kb] := (commitKey_eq_some b kb).mp hkb
    intro hh
    apply hne
    rw [hka, hkb]
    rw [ha2, hb2] at hh
    simp only [List.headD_cons] at hh
    rw [hh]

/-- C1 counterexample: the claim as stated — a commit with exactly one linked
PR is kept iff its PR number has not occurred on ANY earlier commit — is false:
the code only records PR numbers of kept single-PR commits, so a PR number
that occurred on an earlier ambiguous (two-PR) commit does not block a later
single-PR commit.  Concretely, with commits d (prs 55 and 56, dropped as
ambiguous) then e (prs 55), the code keeps e although 55 occurred on d. -/
theorem claim_C1_counterexample :
    ¬ (∀ (cs pre post : List GhCommit) (c : GhCommit), cs = pre ++ c :: post →
        (c ∈ keptCommits cs ↔
          c.prs = [] ∨
            (c.prs.length = 1 ∧ ∀ y ∈ pre, c.prs.headD 0 ∉ y.prs))) := by
  intro hclaim
  have h2 := hclaim
    [{ sha := "d", prs := [55, 56] }, { sha := "e", prs := [55] }]
    [{ sha := "d", prs := [55, 56] }] []
    { sha := "e", prs := [55] } rfl
  have hkept : ({ sha := "e", prs := [55] } : GhCommit) ∈
      keptCommits [{ sha := "d", prs := [55, 56] },
        { sha := "e", prs := [55] }] := by decide
  have h3 := h2.mp hkept
  revert h3
  decide

/-- C1 witness: on the spec scenario a(101), b(101), c(no PRs), d(55 and 56),
the amended characterization applied at position 1 shows commit b is dropped
(PR 101 already seen on commit a). -/
theorem claim_C1_witness :
    ((1 : Nat), ({ sha := "b", prs := [101] } : GhCommit)) ∉
      keptEnum [{ sha := "a", prs := [101] }, { sha := "b", prs := [101] },
        { sha := "c" }, { sha := "d", prs := [55, 56] }] := by
  intro hmem
  have h := (claim_C1_commit_classification
      [{ sha := "a", prs := [101] }, { sha := "b", prs := [101] },
        { sha := "c" }, { sha := "d", prs := [55, 56] }]).2.1
    [{ sha := "a", prs := [101] }] { sha := "b", prs := [101] }
    [{ sha := "c" }, { sha := "d", prs := [55, 56] }] rfl
  have h3 := h.mp hmem
  revert h3
  decide

/-- C8: the output of one commit fetch task is the records of all kept PR
commits first, in the order their defining (first-seen) commit was
encountered, followed by the records of all kept standalone commits in
encounter order: the two parts are sublists of the input (hence in encounter
order), every PR-part member has exactly one linked PR, and the standalone
part is exactly the filter of the zero-PR commits. -/
theorem claim_C8_output_ordering (owner repo : String) (cs : List GhCommit) :
    ∃ prPart stPart,
      commitTaskBody owner repo cs =
        prPart.map (mkCommitRecord owner repo) ++
          stPart.map (mkCommitRecord owner repo) ∧
      keptCommits cs = prPart ++ stPart ∧
      prPart.Sublist cs ∧
      stPart.Sublist cs ∧
      (∀ c ∈ prPart, c.prs.length = 1) ∧
      stPart = cs.filter (fun c => c.prs.length == 0) := by
  refine ⟨prCommitsOf cs, standaloneCommitsOf cs, ?_, rfl, ?_, ?_, ?_,
    standaloneCommitsOf_eq cs⟩
  · unfold commitTaskBody keptCommits
    rw [List.map_append]
  · rw [prCommitsOf_eq]
    exact firstOccur_sublist commitKey cs []
  · rw [standaloneCommitsOf_eq]
    exact List.filter_sublist cs
  · intro c hc
    rw [prCommitsOf_eq] at hc
    obtain ⟨k, t1, t2, hk, -, -, -⟩ :=
      (mem_firstOccur_iff commitKey cs [] c).mp hc
    rw [(commitKey_eq_some c k).mp hk]
    rfl

/-- C8 witness: the ordering decomposition evaluated on the spec scenario. -/
theorem claim_C8_witness :
    ∃ prPart stPart,
      commitTaskBody "org" "repo"
          [{ sha := "a", prs := [101] }, { sha := "c" },
            { sha := "b", prs := [7] }] =
        prPart.map (mkCommitRecord "org" "repo") ++
          stPart.map (mkCommitRecord "org" "repo") ∧
      keptCommits [{ sha := "a", prs := [101] }, { sha := "c" },
          { sha := "b", prs := [7] }] = prPart ++ stPart ∧
      prPart.Sublist [{ sha := "a", prs := [101] }, { sha := "c" },
        { sha := "b", prs := [7] }] ∧
      stPart.Sublist [{ sha := "a", prs := [101] }, { sha := "c" },
        { sha := "b", prs := [7] }] ∧
      (∀ c ∈ prPart, c.prs.length = 1) ∧
      stPart = List.filter (fun c => c.prs.length == 0)
        [{ sha := "a", prs := [101] }, { sha := "c" },
          { sha := "b", prs := [7] }] :=
  claim_C8_output_ordering "org" "repo"
    [{ sha := "a", prs := [101] }, { sha := "c" }, { sha := "b", prs := [7] }]

theorem drop_duplicates_eq (l : List ResolvedItemRecord)
    (seen : List (Nat × String × String)) :
    drop_duplicates l seen =
      firstOccur (fun r => some (recordKey r)) l seen := by
  induction l generalizing seen with
  | nil => simp [drop_duplicates, firstOccur]
  | cons r rest ih =>
    by_cases h : recordKey r ∈ seen
    · simp [drop_duplicates, firstOccur, h, ih]
    · simp [drop_duplicates, firstOccur, h, ih]

/-- C2: for every aggregated collection of per-task record sequences, after
the dedup of src/reports/main.py line 225 no two surviving records share the
key (number, organization, repository); the result is a sublist of the
concatenation, and for every input record some survivor carries its key —
namely the first record with that key in concatenation order (no record
before the survivor shares its key). -/
theorem claim_C2_dedup_correctness
    (parts : List (List ResolvedItemRecord)) :
    (drop_duplicates parts.flatten []).Pairwise
      (fun a b => recordKey a ≠ recordKey b) ∧
    (drop_duplicates parts.flatten []).Sublist parts.flatten ∧
    (∀ r ∈ parts.flatten, ∃ r2 t1 t2,
      r2 ∈ drop_duplicates parts.flatten [] ∧
      recordKey r2 = recordKey r ∧
      parts.flatten = t1 ++ r2 :: t2 ∧
      ∀ y ∈ t1, recordKey y ≠ recordKey r2) := by
  rw [drop_duplicates_eq]
  refine ⟨?_, firstOccur_sublist _ _ _, ?_⟩
  · refine List.Pairwise.imp ?_
      (pairwise_key_firstOccur (fun r => some (recordKey r)) parts.flatten [])
    intro a b h hc
    exact h (by rw [hc])
  · intro r hr
    obtain ⟨x, hx, hkx⟩ := exists_mem_firstOccur
      (fun r => some (recordKey r)) parts.flatten [] r (recordKey r) hr rfl
      (by simp)
    have hxkey : recordKey x = recordKey r := Option.some.inj hkx
    obtain ⟨k, t1, t2, hk, -, heq, hall⟩ :=
      (mem_firstOccur_iff (fun r => some (recordKey r)) parts.flatten [] x).mp hx
    have hkk : k = recordKey x := (Option.some.inj hk).symm
    refine ⟨x, t1, t2, hx, hxkey, heq, ?_⟩
    intro y hy
    have := hall y hy
    intro hc
    exact this (by rw [hc, hkk])

/-- C2 witness: two task outputs both surface key (7, o, r) under different
contributors; the aggregated dedup keeps exactly the first such record. -/
theorem claim_C2_witness :
    ∃ r2 t1 t2,
      r2 ∈ drop_duplicates
        ([[{ number := 7, title := "t", itemType := "Issue", state := "closed",
             author := none, url := "u", created_at := none,
             updated_at := none, organization := "o", repository := "r",
             contributor := "alice" }],
          [{ number := 7, title := "t", itemType := "Issue", state := "closed",
             author := none, url := "u", created_at := none,
             updated_at := none, organization := "o", repository := "r",
             contributor := "bob" }]] :
            List (List ResolvedItemRecord)).flatten [] ∧
      recordKey r2 = recordKey
        { number := 7, title := "t", itemType := "Issue", state := "closed",
          author := none, url := "u", created_at := none, updated_at := none,
          organization := "o", repository := "r", contributor := "bob" } ∧
      ([[{ number := 7, title := "t", itemType := "Issue", state := "closed",
           author := none, url := "u", created_at := none,
           updated_at := none, organization := "o", repository := "r",
           contributor := "alice" }],
        [{ number := 7, title := "t", itemType := "Issue", state := "closed",
           author := none, url := "u", created_at := none,
           updated_at := none, organization := "o", repository := "r",
           contributor := "bob" }]] :
          List (List ResolvedItemRecord)).flatten = t1 ++ r2 :: t2 ∧
      ∀ y ∈ t1, recordKey y ≠ recordKey r2 :=
  (claim_C2_dedup_correctness
      [[{ number := 7, title := "t", itemType := "Issue", state := "closed",
          author := none, url := "u", created_at := none, updated_at := none,
          organization := "o", repository := "r", contributor := "alice" }],
        [{ number := 7, title := "t", itemType := "Issue", state := "closed",
           author := none, url := "u", created_at := none,
           updated_at := none, organization := "o", repository := "r",
           contributor := "bob" }]]).2.2
    { number := 7, title := "t", itemType := "Issue", state := "closed",
      author := none, url := "u", created_at := none, updated_at := none,
      organization := "o", repository := "r", contributor := "bob" }
    (by decide)

theorem processItems_mem (tasks : List RTask) (contributor : String)
    (items : List SearchItem) (r : ResolvedItemRecord)
    (hr : r ∈ processItems tasks contributor items) :
    (r.organization, r.repository, r.contributor) ∈ tasks := by
  induction items with
  | nil => cases hr
  | cons item rest ih =>
    by_cases h : (item.repoOwnerLogin, item.repoName, contributor) ∈ tasks
    · rw [processItems, if_pos h] at hr
      rcases List.mem_cons.mp hr with h2 | h2
      · rw [h2]
        exact h
      · exact ih h2
    · rw [processItems, if_neg h] at hr
      exact ih hr

/-- C3: a resolved-item fetch task emits a record only when the triple
(item owner, item repo, contributor) is present in the task list; the emitted
record carries exactly that triple in its organization, repository and
contributor fields, so any search result whose triple is absent from the task
list is never emitted. -/
theorem claim_C3_task_scope_guard (tasks : List RTask) (contributor : String)
    (start_date end_date : PyDate)
    (search : String → Except PyErr (List SearchItem))
    (recs : List ResolvedItemRecord) (logs : List String)
    (r : ResolvedItemRecord)
    (hok : get_resolved_for_contributor tasks contributor start_date end_date
      search = .ok (recs, logs))
    (hr : r ∈ recs) :
    (r.organization, r.repository, r.contributor) ∈ tasks := by
  unfold get_resolved_for_contributor at hok
  cases hi : search (issueQueryStr tasks contributor start_date end_date) with
  | error e =>
    cases e with
    | exception msg =>
      rw [hi] at hok
      cases hok
      cases hr
    | fatal msg =>
      rw [hi] at hok
      cases hok
  | ok issues =>
    rw [hi] at hok
    cases hp : search (prQueryStr tasks contributor start_date end_date) with
    | error e =>
      cases e with
      | exception msg =>
        rw [hp] at hok
        cases hok
        cases hr
      | fatal msg =>
        rw [hp] at hok
        cases hok
    | ok prs =>
      rw [hp] at hok
      cases hok
      exact processItems_mem tasks contributor (issues ++ prs) r hr

/-- C3 witness: with task list [(org, repo, alice)] and a search returning one
in-scope item and one item from the unconfigured repo (org, other), the task
emits only in-scope records, whose triple is in the task list. -/
theorem claim_C3_witness :
    (("org", "repo", "alice") : RTask) ∈
      ([("org", "repo", "alice")] : List RTask) :=
  claim_C3_task_scope_guard [("org", "repo", "alice")] "alice"
    { year := 2025, month := 1, day := 1 }
    { year := 2025, month := 3, day := 31 }
    (fun _ => .ok [{ number := 1, repoOwnerLogin := "org", repoName := "repo" },
      { number := 2, repoOwnerLogin := "org", repoName := "other" }])
    [mkResolvedRecord "alice"
        { number := 1, repoOwnerLogin := "org", repoName := "repo" },
      mkResolvedRecord "alice"
        { number := 1, repoOwnerLogin := "org", repoName := "repo" }]
    []
    (mkResolvedRecord "alice"
      { number := 1, repoOwnerLogin := "org", repoName := "repo" })
    rfl
    (List.mem_cons_self _ _)

/-- C4: neither fetch task propagates an Exception-class failure of the
underlying API calls: the commit task turns a failed listing into the empty
record list plus a diagnostic naming owner/repo/author; the resolved task does
the same (naming the contributor) whether the failure hits the first search or
only the second (results already obtained from the first search are then
discarded); and a
task contributing an empty list leaves the concatenated aggregate over the
remaining tasks unchanged. -/
theorem claim_C4_per_task_fail_soft (owner repo author contributor : String)
    (tasks : List RTask) (start_date end_date : PyDate) (e : String)
    (issues : List SearchItem) (pre post : List (List CommitRecord)) :
    get_commits_for_repo_author owner repo author
        (.error (.exception e)) =
      .ok ([], [commitErrLog owner repo author e]) ∧
    get_resolved_for_contributor tasks contributor start_date end_date
        (fun _ => .error (.exception e)) =
      .ok ([], [resolvedErrLog contributor e]) ∧
    get_resolved_for_contributor tasks contributor start_date end_date
        (fun q => if q = prQueryStr tasks contributor start_date end_date
          then .error (.exception e) else .ok issues) =
      .ok ([], [resolvedErrLog contributor e]) ∧
    (pre ++ [[]] ++ post).flatten = (pre ++ post).flatten := by
  refine ⟨rfl, rfl, ?_, ?_⟩
  · unfold get_resolved_for_contributor
    by_cases h : issueQueryStr tasks contributor start_date end_date =
        prQueryStr tasks contributor start_date end_date
    · simp [h]
    · simp [h]
  · simp

/-- C5 counterexample: the claim that an Exception-class error raised inside
the task body (for example a defect in the classification logic) propagates
out of get_commits_for_repo_author is false: the except handler at
src/reports/main.py line 71 catches every Exception raised anywhere in the
try block of lines 36-70, which includes the classification loop. -/
theorem claim_C5_counterexample :
    ¬ (∀ (owner repo author e : String),
        commitTaskExcept owner repo author (Except.error (PyErr.exception e)) =
          Except.error (PyErr.exception e)) := by
  intro h
  have h2 := h "octo" "hub" "alice" "TypeError in classification"
  exact Except.noConfusion h2

/-- C5 (amended): an Exception-class error raised anywhere inside the task
body — the classification logic included — IS caught at the task boundary and
converted into an empty result with a logged diagnostic; only an error outside
the Python Exception class (KeyboardInterrupt, SystemExit) escapes the
boundary and aborts the run. -/
theorem claim_C5_boundary_catches_all (owner repo author e : String) :
    commitTaskExcept owner repo author (.error (.exception e)) =
      .ok ([], [commitErrLog owner repo author e]) ∧
    commitTaskExcept owner repo author (.error (.fatal e)) =
      .error (.fatal e) :=
  ⟨rfl, rfl⟩

/-- C6: with an unknown PI date range the run fails with the date-range
configuration error, and with a known range but zero task triples it fails
with the empty-task-list configuration error; in both cases the result does
not depend on the fetch functions (quantified arbitrarily), so no commit or
resolved-item fetch is ever executed. -/
theorem claim_C6_fail_fast (cfg : RunConfig)
    (fetchCommits : RTask → List CommitRecord)
    (fetchResolved : String → List ResolvedItemRecord) :
    (cfg.time_range = none →
      mainRun cfg fetchCommits fetchResolved = .error .noDateRange) ∧
    (∀ tr, cfg.time_range = some tr → cfg.tasks = [] →
      mainRun cfg fetchCommits fetchResolved = .error .noTasks) := by
  constructor
  · intro h
    simp [mainRun, h]
  · intro tr h1 h2
    simp [mainRun, h1, h2]

/-- C6 witness: both configuration errors evaluated on concrete configs. -/
theorem claim_C6_witness :
    mainRun { time_range := none, contributors := [], tasks := [] }
        (fun _ => []) (fun _ => []) = .error .noDateRange ∧
    mainRun (RunConfig.mk (some (PyDate.mk 2025 1 1, PyDate.mk 2025 3 31))
        [("Alice", "alice")] [])
        (fun _ => []) (fun _ => []) = .error .noTasks :=
  ⟨(claim_C6_fail_fast _ _ _).1 rfl, (claim_C6_fail_fast _ _ _).2 _ rfl rfl⟩

theorem count_mul_le_sum_map {α : Type} [BEq α] [LawfulBEq α] (l : List α)
    (a : α) (g : α → Nat) : l.count a * g a ≤ (l.map g).sum := by
  induction l with
  | nil => simp
  | cons b t ih =>
    by_cases h : b = a
    · rw [h]
      simp only [List.count_cons_self, List.map_cons, List.sum_cons]
      calc (t.count a + 1) * g a = t.count a * g a + g a := by ring
        _ ≤ (t.map g).sum + g a := Nat.add_le_add_right ih _
        _ = g a + (t.map g).sum := by omega
    · rw [List.count_cons_of_ne (fun hh => h hh.symm)]
      simp only [List.map_cons, List.sum_cons]
      omega

/-- C9 (implicit): the aggregated commit result set applies no deduplication:
on a successful run the count of every record in the final commit output is
the sum, over the task list in multiplicity, of its count in the records of
that task — so a task triple configured twice contributes its records once per
duplicate (second conjunct gives the per-triple lower bound explicitly). -/
theorem claim_C9_commit_concat_no_dedup (cfg : RunConfig)
    (fetchCommits : RTask → List CommitRecord)
    (fetchResolved : String → List ResolvedItemRecord)
    (tr : PyDate × PyDate)
    (h1 : cfg.time_range = some tr) (h2 : cfg.tasks ≠ []) :
    ∃ cs rs, mainRun cfg fetchCommits fetchResolved = .ok (cs, rs) ∧
      (∀ rec : CommitRecord,
        cs.count rec =
          (cfg.tasks.map (fun t => (fetchCommits t).count rec)).sum) ∧
      (∀ t rec,
        cfg.tasks.count t * (fetchCommits t).count rec ≤ cs.count rec) := by
  have hlen : ¬ cfg.tasks.length < 1 := by
    cases hts : cfg.tasks with
    | nil => exact absurd hts h2
    | cons a l => simp [hts]
  refine ⟨(cfg.tasks.map fetchCommits).flatten,
    drop_duplicates
      ((cfg.contributors.map (fun p => fetchResolved p.2)).flatten) [], ?_, ?_, ?_⟩
  · unfold mainRun
    rw [h1, if_neg hlen]
  · intro rec
    rw [List.count_flatten, List.map_map]
    rfl
  · intro t rec
    calc cfg.tasks.count t * (fetchCommits t).count rec
        ≤ (cfg.tasks.map (fun u => (fetchCommits u).count rec)).sum :=
          count_mul_le_sum_map cfg.tasks t (fun u => (fetchCommits u).count rec)
      _ = ((cfg.tasks.map fetchCommits).flatten).count rec := by
          rw [List.count_flatten, List.map_map]
          rfl

/-- Fetch function used by the C9 witness: one record per task triple. -/
def c9fetch (t : RTask) : List CommitRecord :=
  [{ sha := "s", message := "m", author := "a", committer := "c", url := "u",
     total_changes := 3, organization := t.1, repository := t.2.1 }]

/-- Task list used by the C9 witness: the same triple configured twice. -/
def c9tasks : List RTask :=
  [("org", "repo", "alice"), ("org", "repo", "alice")]

/-- C9 witness: with the same triple configured twice, the aggregate count of
every record is the sum over both duplicates. -/
theorem claim_C9_witness :
    ∃ cs rs,
      mainRun (RunConfig.mk (some (PyDate.mk 2025 1 1, PyDate.mk 2025 3 31))
          [] c9tasks) c9fetch (fun _ => []) = .ok (cs, rs) ∧
      (∀ rec : CommitRecord,
        cs.count rec = (c9tasks.map (fun t => (c9fetch t).count rec)).sum) ∧
      (∀ t rec, c9tasks.count t * (c9fetch t).count rec ≤ cs.count rec) :=
  claim_C9_commit_concat_no_dedup
    (RunConfig.mk (some (PyDate.mk 2025 1 1, PyDate.mk 2025 3 31)) [] c9tasks)
    c9fetch (fun _ => [])
    (PyDate.mk 2025 1 1, PyDate.mk 2025 3 31) rfl (by decide)

/-- C10 (implicit): an empty contributor list is not a configuration error —
with a known date range and a non-empty task list the run returns ok, no
resolved-item fetch task is created (the result does not depend on the
resolved fetch function at all), and the final resolved-items result set is
empty. -/
theorem claim_C10_empty_contributors (cfg : RunConfig)
    (fetchCommits : RTask → List CommitRecord)
    (tr : PyDate × PyDate)
    (h0 : cfg.contributors = [])
    (h1 : cfg.time_range = some tr) (h2 : cfg.tasks ≠ []) :
    ∃ cs, ∀ fetchResolved : String → List ResolvedItemRecord,
      mainRun cfg fetchCommits fetchResolved = .ok (cs, []) := by
  have hlen : ¬ cfg.tasks.length < 1 := by
    cases hts : cfg.tasks with
    | nil => exact absurd hts h2
    | cons a l => simp [hts]
  refine ⟨(cfg.tasks.map fetchCommits).flatten, ?_⟩
  intro fetchResolved
  unfold mainRun
  rw [h1, if_neg hlen, h0]
  rfl

/-- C10 witness: one commit task, no contributors: the run succeeds with an
empty resolved result, for any resolved fetch behavior. -/
theorem claim_C10_witness :
    ∃ cs, ∀ fetchResolved : String → List ResolvedItemRecord,
      mainRun (RunConfig.mk (some (PyDate.mk 2025 1 1, PyDate.mk 2025 3 31))
          [] [("org", "repo", "alice")])
        (fun _ => []) fetchResolved = .ok (cs, []) :=
  claim_C10_empty_contributors
    (RunConfig.mk (some (PyDate.mk 2025 1 1, PyDate.mk 2025 3 31))
      [] [("org", "repo", "alice")])
    (fun _ => []) (PyDate.mk 2025 1 1, PyDate.mk 2025 3 31)
    rfl rfl (by decide)

/-- Substring occurrence at the character level: m occurs contiguously in s. -/
def occursWithin (m s : String) : Prop :=
  ∃ l r, s.data = l ++ m.data ++ r

theorem occursWithin_self (m : String) : occursWithin m m :=
  ⟨[], [], by simp⟩

theorem occursWithin_append_left (m s t : String)
    (h : occursWithin m s) : occursWithin m (s ++ t) := by
  obtain ⟨l, r, hlr⟩ := h
  exact ⟨l, r ++ t.data, by rw [String.data_append, hlr]; simp⟩

theorem occursWithin_append_right (m s t : String)
    (h : occursWithin m t) : occursWithin m (s ++ t) := by
  obtain ⟨l, r, hlr⟩ := h
  exact ⟨s.data ++ l, r, by rw [String.data_append, hlr]; simp⟩

theorem occursWithin_joinSpace (x : String) (l : List String) (hx : x ∈ l) :
    occursWithin x (joinSpace l) := by
  induction l with
  | nil => cases hx
  | cons a t ih =>
    cases t with
    | nil =>
      rcases List.mem_cons.mp hx with h | h
      · rw [h]
        exact occursWithin_self a
      · cases h
    | cons b t2 =>
      rcases List.mem_cons.mp hx with h | h
      · rw [h]
        show occursWithin a (a ++ " " ++ joinSpace (b :: t2))
        exact occursWithin_append_left _ _ _
          (occursWithin_append_left _ _ _ (occursWithin_self a))
      · show occursWithin x (a ++ " " ++ joinSpace (b :: t2))
        exact occursWithin_append_right _ _ _ (ih h)

/-- C7: for every task list, contributor and date range, the two search
queries of src/reports/main.py lines 103-104 are built from one shared base
filter string: the issue query prefixes it with is:issue, the pull-request
query prefixes it with is:pr and appends the -author exclusion for the
contributor, and the base contains a repo qualifier for every (owner, repo)
pair of the full task list, the involves qualifier for the contributor, and
the closed range qualifier with both dates rendered by the strftime %Y-%m-%d
embedding. -/
theorem claim_C7_two_search_queries (tasks : List RTask) (contributor : String)
    (start_date end_date : PyDate) :
    ∃ base : String,
      issueQueryStr tasks contributor start_date end_date =
        "is:issue " ++ base ∧
      prQueryStr tasks contributor start_date end_date =
        "is:pr " ++ base ++ " -author:" ++ contributor ∧
      (∀ owner repo user, (owner, repo, user) ∈ tasks →
        occursWithin ("repo:" ++ owner ++ "/" ++ repo) base) ∧
      occursWithin ("involves:" ++ contributor) base ∧
      occursWithin ("closed:" ++ strftimeDashed start_date ++ ".." ++
        strftimeDashed end_date) base := by
  refine ⟨base_query tasks contributor start_date end_date, rfl, rfl,
    ?_, ?_, ?_⟩
  · intro owner repo user hmem
    have h0 : occursWithin ("repo:" ++ owner ++ "/" ++ repo)
        (repo_filters tasks) := by
      unfold repo_filters
      exact occursWithin_joinSpace _ _
        (List.mem_map_of_mem (fun t => "repo:" ++ t.1 ++ "/" ++ t.2.1) hmem)
    unfold base_query
    repeat apply occursWithin_append_left
    exact h0
  · refine ⟨(repo_filters tasks).data ++ " ".data,
      " ".data ++ "closed:".data ++ (strftimeDashed start_date).data ++
        "..".data ++ (strftimeDashed end_date).data, ?_⟩
    unfold base_query
    simp [String.data_append]
  · refine ⟨(repo_filters tasks).data ++ " ".data ++ "involves:".data ++
      contributor.data ++ " ".data, [], ?_⟩
    unfold base_query
    simp [String.data_append]

/-- C7 witness: the query shapes evaluated for one concrete task list,
contributor and date range. -/
theorem claim_C7_witness :
    ∃ base : String,
      issueQueryStr [("org", "repo", "alice")] "alice"
          (PyDate.mk 2025 1 1) (PyDate.mk 2025 3 31) =
        "is:issue " ++ base ∧
      prQueryStr [("org", "repo", "alice")] "alice"
          (PyDate.mk 2025 1 1) (PyDate.mk 2025 3 31) =
        "is:pr " ++ base ++ " -author:" ++ "alice" ∧
      (∀ owner repo user,
        (owner, repo, user) ∈ ([("org", "repo", "alice")] : List RTask) →
        occursWithin ("repo:" ++ owner ++ "/" ++ repo) base) ∧
      occursWithin ("involves:" ++ "alice") base ∧
      occursWithin ("closed:" ++ strftimeDashed (PyDate.mk 2025 1 1) ++ ".." ++
        strftimeDashed (PyDate.mk 2025 3 31)) base :=
  claim_C7_two_search_queries [("org", "repo", "alice")] "alice"
    (PyDate.mk 2025 1 1) (PyDate.mk 2025 3 31)
